import Mathlib

/-!
Verification development for the 3DBPP online bin-packing solver.

Shallow embedding of the Python sources under src/ into Lean 4.
Floating-point numbers are modelled as rationals (exact arithmetic over the
literals that actually occur in the code); Python tuples become products,
Python lists become Lean lists, and the dataclasses become structures.
Each definition mirrors one function of the repository; file and line
references are given in the doc comments.
-/

set_option maxRecDepth 1000000

namespace BPP

/-- A 3D point or dimension triple, as the Python tuple (x, y, z). -/
abbrev Pos := ℚ × ℚ × ℚ

/-- An axis-aligned rectangle (x_min, y_min, x_max, y_max), as geometry.py. -/
abbrev Rect := ℚ × ℚ × ℚ × ℚ

/-! Configuration constants from config.py. -/

/-- config.py MEASUREMENT_ERROR = 3.0, added to every item dimension. -/
def MEASUREMENT_ERROR : ℚ := 3

/-- config.py STABILITY_FACTOR = 0.75. -/
def STABILITY_FACTOR : ℚ := 3/4

/-- config.py MERGE_MARGIN = 1e-6. -/
def MERGE_MARGIN : ℚ := 1/1000000

/-- config.py CAGE_DIMENSIONS = (100, 100, 100). -/
def CAGE_DIMENSIONS : Pos := (100, 100, 100)

/-- The absolute tolerance 1e-6 used literally throughout constraints.py and
the packers. Numerically equal to MERGE_MARGIN. -/
def TOLERANCE : ℚ := 1/1000000

/-! Geometry primitives from src/bpp_solver/geometry.py. -/

/-- geometry.py get_rect_area: 0 for degenerate rectangles. -/
def get_rect_area (r : Rect) : ℚ :=
  if r.1 ≥ r.2.2.1 ∨ r.2.1 ≥ r.2.2.2 then 0
  else (r.2.2.1 - r.1) * (r.2.2.2 - r.2.1)

/-- geometry.py get_intersection_area. -/
def get_intersection_area (r1 r2 : Rect) : ℚ :=
  let ixmin := max r1.1 r2.1
  let iymin := max r1.2.1 r2.2.1
  let ixmax := min r1.2.2.1 r2.2.2.1
  let iymax := min r1.2.2.2 r2.2.2.2
  if ixmin ≥ ixmax ∨ iymin ≥ iymax then 0
  else (ixmax - ixmin) * (iymax - iymin)

/-- geometry.py is_rect_completely_contained. -/
def is_rect_completely_contained (inner outer : Rect) : Bool :=
  inner.1 ≥ outer.1 ∧ inner.2.1 ≥ outer.2.1 ∧
  inner.2.2.1 ≤ outer.2.2.1 ∧ inner.2.2.2 ≤ outer.2.2.2

/-! Entity model from src/bpp_solver/data_structures.py. -/

/-- data_structures.py Item. The rotation index is modelled as Fin 6; the
source raises ValueError on indices outside 0..5 (out of scope here, every
claim concerns valid indices). The derived field calc_dimensions is modelled
as the function Item.calc_dimensions below (the dataclass computes it in
post-init from base_dimensions, so it carries no independent state). -/
structure Item where
  id : ℤ
  base_dimensions : Pos
  weight : ℚ
  position : Option Pos := none
  allowed_rotations : List (Fin 6) := [0, 1, 2, 3, 4, 5]
  rotation_type : Fin 6 := 0
  is_fragile : Bool := false
deriving DecidableEq, Repr

/-- data_structures.py Item.post-init: base dimensions inflated by the
measurement error. -/
def Item.calc_dimensions (it : Item) : Pos :=
  (it.base_dimensions.1 + MEASUREMENT_ERROR,
   it.base_dimensions.2.1 + MEASUREMENT_ERROR,
   it.base_dimensions.2.2 + MEASUREMENT_ERROR)

/-- data_structures.py Item.get_rotated_dimensions: the fixed 6-entry
permutation table over calc_dimensions. -/
def Item.get_rotated_dimensions (it : Item) (rt : Fin 6) : Pos :=
  let l := it.calc_dimensions.1
  let w := it.calc_dimensions.2.1
  let h := it.calc_dimensions.2.2
  match rt with
  | 0 => (l, w, h)
  | 1 => (w, l, h)
  | 2 => (l, h, w)
  | 3 => (h, l, w)
  | 4 => (w, h, l)
  | 5 => (h, w, l)

/-- data_structures.py SupportSurface. -/
structure SupportSurface where
  z : ℚ
  rect : Rect
  supporting_items : List String
deriving DecidableEq, Repr

/-- data_structures.py CageTrolley (the raw record; construction goes
through mkCageTrolley which performs the post-init step). -/
structure CageTrolley where
  id : String
  dimensions : Pos
  weight_limit : ℚ
  packed_items : List Item
  support_surfaces : List SupportSurface
  corner_points : List Pos
deriving DecidableEq, Repr

/-- The initial floor surface created by CageTrolley.post-init. -/
def floorSurface (dims : Pos) : SupportSurface :=
  { z := 0, rect := (0, 0, dims.1, dims.2.1), supporting_items := ["floor"] }

/-- data_structures.py CageTrolley construction: the dataclass defaults
(packed_items=[], support_surfaces=[], corner_points=[(0,0,0)]) are passed
explicitly by each call site, and post-init installs the floor surface
whenever support_surfaces is empty. -/
def mkCageTrolley (id : String) (dims : Pos) (wl : ℚ) (packed : List Item)
    (surfaces : List SupportSurface) (corners : List Pos) : CageTrolley :=
  { id := id, dimensions := dims, weight_limit := wl, packed_items := packed,
    support_surfaces := if surfaces.isEmpty then [floorSurface dims] else surfaces,
    corner_points := corners }

/-- data_structures.py CageTrolley.current_weight. -/
def CageTrolley.current_weight (c : CageTrolley) : ℚ :=
  (c.packed_items.map (fun it => it.weight)).sum

/-- data_structures.py CageTrolley.add_item: sets the item placement fields
and appends it. (In Python the shared Item object is mutated in place; in
this value-semantics embedding the placed copy is appended, which is
observationally equivalent for everything the solver reads afterwards.) -/
def CageTrolley.add_item (c : CageTrolley) (it : Item) (pos : Pos) (rt : Fin 6) :
    CageTrolley :=
  { c with packed_items :=
      c.packed_items ++ [{ it with position := some pos, rotation_type := rt }] }

/-! Constraint checker from src/bpp_solver/constraints.py. -/

/-- constraints.py check_boundary_constraint. -/
def check_boundary_constraint (cage : CageTrolley) (pos dims : Pos) : Bool :=
  let px := pos.1; let py := pos.2.1; let pz := pos.2.2
  let dl := dims.1; let dw := dims.2.1; let dh := dims.2.2
  let cl := cage.dimensions.1; let cw := cage.dimensions.2.1
  let ch := cage.dimensions.2.2
  px ≥ -TOLERANCE ∧ py ≥ -TOLERANCE ∧ pz ≥ -TOLERANCE ∧
  px + dl ≤ cl + TOLERANCE ∧ py + dw ≤ cw + TOLERANCE ∧ pz + dh ≤ ch + TOLERANCE

/-- constraints.py check_weight_constraint. -/
def check_weight_constraint (cage : CageTrolley) (it : Item) : Bool :=
  cage.current_weight + it.weight ≤ cage.weight_limit

/-- The running total of constraints.py check_stackable_constraint: sum of
footprint/surface intersection areas over the surfaces whose height is
within 1e-6 of the placement height (the source writes the literal 1e-6,
numerically MERGE_MARGIN). -/
def support_sum (cage : CageTrolley) (pos dims : Pos) : ℚ :=
  let footprint : Rect := (pos.1, pos.2.1, pos.1 + dims.1, pos.2.1 + dims.2.1)
  (cage.support_surfaces.map (fun s =>
    if |s.z - pos.2.2| < TOLERANCE then get_intersection_area footprint s.rect
    else 0)).sum

/-- constraints.py check_stackable_constraint (the item argument is unused
by the source body as well). -/
def check_stackable_constraint (cage : CageTrolley) (_it : Item)
    (pos dims : Pos) : Bool :=
  let item_bottom_area := dims.1 * dims.2.1
  if item_bottom_area = 0 then true
  else
    support_sum cage pos dims ≥ item_bottom_area * STABILITY_FACTOR - TOLERANCE

/-- constraints.py check_collision_constraint (the active, uncommented
variant, lines 103-155): per packed item it computes the axis overlaps of a
top-down insertion box and a side insertion box, and reports a collision
when on each axis at least one of the two boxes overlaps. Note the source
literally computes the top box z extent as dimensions[2] - pos.z and the
side box y extent as dimensions[2] - pos.y. -/
def check_collision_constraint (cage : CageTrolley) (pos dims : Pos) : Bool :=
  let x1min := pos.1; let y1min := pos.2.1; let z1min := pos.2.2
  let x1maxUp := x1min + dims.1
  let y1maxUp := y1min + dims.2.1
  let z1maxUp := cage.dimensions.2.2 - z1min
  let x1maxS := x1min + dims.1
  let y1maxS := cage.dimensions.2.2 - y1min
  let z1maxS := z1min + dims.2.2
  cage.packed_items.any (fun p =>
    match p.position with
    | none => false
    | some pp =>
      let pd := p.get_rotated_dimensions p.rotation_type
      let x2min := pp.1; let y2min := pp.2.1; let z2min := pp.2.2
      let x2max := x2min + pd.1
      let y2max := y2min + pd.2.1
      let z2max := z2min + pd.2.2
      let xUp := x1min < x2max - TOLERANCE ∧ x1maxUp > x2min + TOLERANCE
      let yUp := y1min < y2max - TOLERANCE ∧ y1maxUp > y2min + TOLERANCE
      let zUp := z1min < z2max - TOLERANCE ∧ z1maxUp > z2min + TOLERANCE
      let xS := x1min < x2max - TOLERANCE ∧ x1maxS > x2min + TOLERANCE
      let yS := y1min < y2max - TOLERANCE ∧ y1maxS > y2min + TOLERANCE
      let zS := z1min < z2max - TOLERANCE ∧ z1maxS > z2min + TOLERANCE
      ((xUp ∨ xS) ∧ (yUp ∨ yS) ∧ (zUp ∨ zS) : Bool))

/-- constraints.py check_center_of_gravity_constraint: the weighted (x, y)
sums over the already packed items (items without a position are skipped by
the source). -/
def cog_weighted_sums (cage : CageTrolley) : ℚ × ℚ :=
  cage.packed_items.foldl (fun acc p =>
    match p.position with
    | none => acc
    | some pp =>
      let pd := p.get_rotated_dimensions p.rotation_type
      (acc.1 + p.weight * (pp.1 + pd.1 / 2),
       acc.2 + p.weight * (pp.2.1 + pd.2.1 / 2))) (0, 0)

/-- constraints.py check_center_of_gravity_constraint. -/
def check_center_of_gravity_constraint (cage : CageTrolley) (it : Item)
    (pos : Pos) (rt : Fin 6) : Bool :=
  let sums := cog_weighted_sums cage
  let nd := it.get_rotated_dimensions rt
  let cx := pos.1 + nd.1 / 2
  let cy := pos.2.1 + nd.2.1 / 2
  let totalW := cage.current_weight + it.weight
  if totalW = 0 then true
  else
    let cogx := (sums.1 + it.weight * cx) / totalW
    let cogy := (sums.2 + it.weight * cy) / totalW
    let ratio : ℚ := 8/10
    let sxmin := cage.dimensions.1 * (1 - ratio) / 2
    let sxmax := cage.dimensions.1 * (1 + ratio) / 2
    let symin := cage.dimensions.2.1 * (1 - ratio) / 2
    let symax := cage.dimensions.2.1 * (1 + ratio) / 2
    sxmin ≤ cogx ∧ cogx ≤ sxmax ∧ symin ≤ cogy ∧ cogy ≤ symax

/-- constraints.py is_placement_valid: increments a failure counter for each
of the five predicates (no early return in the source) and succeeds exactly
when the counter stays zero. -/
def is_placement_valid (cage : CageTrolley) (it : Item) (pos : Pos)
    (rt : Fin 6) : Bool :=
  let rotated := it.get_rotated_dimensions rt
  let counter :=
    (if ¬ check_boundary_constraint cage pos rotated then 1 else 0) +
    (if ¬ check_weight_constraint cage it then 1 else 0) +
    (if ¬ check_stackable_constraint cage it pos rotated then 1 else 0) +
    (if check_collision_constraint cage pos rotated then 1 else 0) +
    (if ¬ check_center_of_gravity_constraint cage it pos rt then 1 else 0)
  counter = (0 : ℕ)

/-! Specification-side formulation of the insertion-path predicate, for the
refinement comparison of claim C2 against check_collision_constraint. -/

/-- Axis interval overlap with the tolerance convention of constraints.py:
the intervals [amin, amax] and [bmin, bmax] overlap when amin < bmax - τ
and amax > bmin + τ. -/
def overlap_tol (amin amax bmin bmax : ℚ) : Bool :=
  amin < bmax - TOLERANCE ∧ amax > bmin + TOLERANCE

/-- Stated from the spec (section 4.C, predicate 4): the top-down swept prism
x in [pos.x, pos.x+d.x], y in [pos.y, pos.y+d.y], z from pos.z to the cage
ceiling, intersects some already-packed item (AABB overlap with tolerance). -/
def spec_top_prism_blocked (cage : CageTrolley) (pos dims : Pos) : Bool :=
  cage.packed_items.any (fun p =>
    match p.position with
    | none => false
    | some pp =>
      let pd := p.get_rotated_dimensions p.rotation_type
      overlap_tol pos.1 (pos.1 + dims.1) pp.1 (pp.1 + pd.1) &&
      overlap_tol pos.2.1 (pos.2.1 + dims.2.1) pp.2.1 (pp.2.1 + pd.2.1) &&
      overlap_tol pos.2.2 cage.dimensions.2.2 pp.2.2 (pp.2.2 + pd.2.2))

/-- Stated from the spec (section 4.C, predicate 4): the side swept prism
x in [pos.x, pos.x+d.x], y from pos.y to the cage wall W, z in
[pos.z, pos.z+d.z], intersects some already-packed item. -/
def spec_side_prism_blocked (cage : CageTrolley) (pos dims : Pos) : Bool :=
  cage.packed_items.any (fun p =>
    match p.position with
    | none => false
    | some pp =>
      let pd := p.get_rotated_dimensions p.rotation_type
      overlap_tol pos.1 (pos.1 + dims.1) pp.1 (pp.1 + pd.1) &&
      overlap_tol pos.2.1 cage.dimensions.2.1 pp.2.1 (pp.2.1 + pd.2.1) &&
      overlap_tol pos.2.2 (pos.2.2 + dims.2.2) pp.2.2 (pp.2.2 + pd.2.2))

/-! Concrete fixtures used by the evaluation theorems below. -/

/-- A plain unplaced box: base 37x37x37 (so calc dims 40x40x40), weight 1,
only rotation 0 allowed. -/
def itemA : Item :=
  { id := 1, base_dimensions := (37, 37, 37), weight := 1,
    allowed_rotations := [0] }

/-- The same box with id 2. -/
def itemB : Item :=
  { id := 2, base_dimensions := (37, 37, 37), weight := 1,
    allowed_rotations := [0] }

/-- An empty 100x100x100 cage with weight limit 500. -/
def cage0 : CageTrolley := mkCageTrolley "c" (100, 100, 100) 500 [] [] [(0, 0, 0)]

/-- A wide flat bar: calc dims 100x20x20, packed at (0,0,50): it spans the
whole x range at mid height, near the conveyor-facing wall y=0. -/
def itemBar : Item :=
  { id := 9, base_dimensions := (97, 17, 17), weight := 1,
    position := some (0, 0, 50), allowed_rotations := [0] }

/-- The 100-cage holding only itemBar. -/
def cageBar : CageTrolley :=
  mkCageTrolley "c" (100, 100, 100) 500 [itemBar] [] [(0, 0, 0)]

/-! Theorems for claims C1, C2then C7. -/

/-- C1: is_placement_valid returns true iff all five constraint predicates
hold (boundary, weight, stackability, insertion-path/collision, center of
gravity). The source increments a counter per failed predicate instead of
returning early, so all five are evaluated on every call; the embedding
mirrors that counter, and this theorem shows the result is exactly the
conjunction of the five predicates. -/
theorem is_placement_valid_iff (cage : CageTrolley) (it : Item) (pos : Pos)
    (rt : Fin 6) :
    is_placement_valid cage it pos rt = true ↔
      (check_boundary_constraint cage pos (it.get_rotated_dimensions rt) = true ∧
       check_weight_constraint cage it = true ∧
       check_stackable_constraint cage it pos (it.get_rotated_dimensions rt) = true ∧
       check_collision_constraint cage pos (it.get_rotated_dimensions rt) = false ∧
       check_center_of_gravity_constraint cage it pos rt = true) := by
  simp only [is_placement_valid]
  cases check_boundary_constraint cage pos (it.get_rotated_dimensions rt) <;>
    cases check_weight_constraint cage it <;>
    cases check_stackable_constraint cage it pos (it.get_rotated_dimensions rt) <;>
    cases check_collision_constraint cage pos (it.get_rotated_dimensions rt) <;>
    cases check_center_of_gravity_constraint cage it pos rt <;>
    simp

/-- C2: evaluation of the insertion-path check at a concrete failing input.
The bar blocks only the top-down prism of a 50-cube placed at the origin
(the side prism toward the y wall is free below the bar), yet
check_collision_constraint reports a collision, so the placement is
rejected although one swept prism is free of every packed item. The claim
(reject only if BOTH prisms are blocked) matches the docstring of the
source function but not its code, which disjoins the two candidate boxes
axis by axis. -/
theorem collision_rejects_although_side_free :
    check_collision_constraint cageBar (0, 0, 0) (50, 50, 50) = true ∧
    spec_side_prism_blocked cageBar (0, 0, 0) (50, 50, 50) = false ∧
    spec_top_prism_blocked cageBar (0, 0, 0) (50, 50, 50) = true := by
  with_unfolding_all decide

/-- Intersection areas are never negative. -/
theorem get_intersection_area_nonneg (r1 r2 : Rect) :
    0 ≤ get_intersection_area r1 r2 := by
  simp only [get_intersection_area]
  split_ifs with h
  · exact le_refl 0
  · push_neg at h
    nlinarith [h.1, h.2]

/-- The supported-area total of the stackability check is never negative. -/
theorem support_sum_nonneg (cage : CageTrolley) (pos dims : Pos) :
    0 ≤ support_sum cage pos dims := by
  unfold support_sum
  apply List.sum_nonneg
  intro x hx
  simp only [List.mem_map] at hx
  obtain ⟨s, _, rfl⟩ := hx
  split
  · exact get_intersection_area_nonneg _ _
  · exact le_refl 0

/-- C7: the stackability predicate passes iff the summed intersection area
of the footprint with the support surfaces at the placement height (the
source filters by the literal 1e-6, the value of MERGE_MARGIN) is at least
STABILITY_FACTOR times the footprint area minus the tolerance; a zero-area
footprint passes for every cage (the source early-returns true there, and
the inequality also holds trivially there because the sum is nonnegative). -/
theorem check_stackable_constraint_iff (cage : CageTrolley) (it : Item)
    (pos dims : Pos) :
    (check_stackable_constraint cage it pos dims = true ↔
      STABILITY_FACTOR * (dims.1 * dims.2.1) - TOLERANCE ≤
        support_sum cage pos dims) ∧
    (dims.1 * dims.2.1 = 0 → check_stackable_constraint cage it pos dims = true) := by
  have hs := support_sum_nonneg cage pos dims
  have ht : (0:ℚ) < TOLERANCE := by norm_num [TOLERANCE]
  constructor
  · by_cases h : dims.1 * dims.2.1 = 0
    · constructor
      · intro _
        rw [h, mul_zero]
        linarith
      · intro _
        simp [check_stackable_constraint, h]
    · simp only [check_stackable_constraint, if_neg h, ge_iff_le, decide_eq_true_eq]
      rw [mul_comm (dims.1 * dims.2.1) STABILITY_FACTOR]
  · intro h
    simp [check_stackable_constraint, h]

/-- C7 witness: a zero-area footprint (dims 0x5x5) passes the stackability
check on the empty cage. -/
theorem check_stackable_constraint_iff_witness :
    check_stackable_constraint cage0 itemA (0, 0, 0) (0, 5, 5) = true :=
  (check_stackable_constraint_iff cage0 itemA (0, 0, 0) (0, 5, 5)).2 (by norm_num)

/-! Support-surface manager from src/bpp_solver/EMS/surface_manager.py.
The merge pass (_merge_surfaces and _try_merge_two_rects) is literally
identical in src/bpp_solver/surface_manager.py, so one embedding serves
both files. -/

/-- EMS/surface_manager.py _try_merge_two_rects: merge two rectangles that
are edge-adjacent on one axis and span-equal on the other. -/
def try_merge_two_rects (r1 r2 : Rect) : Option Rect :=
  let x1 := r1.1; let y1 := r1.2.1; let X1 := r1.2.2.1; let Y1 := r1.2.2.2
  let x2 := r2.1; let y2 := r2.2.1; let X2 := r2.2.2.1; let Y2 := r2.2.2.2
  if X1 = x2 ∧ y1 = y2 ∧ Y1 = Y2 then some (x1, y1, X2, Y1)
  else if X2 = x1 ∧ y1 = y2 ∧ Y1 = Y2 then some (x2, y1, X1, Y1)
  else if Y1 = y2 ∧ x1 = x2 ∧ X1 = X2 then some (x1, y1, X1, Y2)
  else if Y2 = y1 ∧ x1 = x2 ∧ X1 = X2 then some (x1, y2, X1, Y1)
  else none

/-- The Python expression list(set(a + b)) on supporting-item lists (set
iteration order is unspecified there; a deduplicated concatenation is one
deterministic representative). -/
def dedup_union (a b : List String) : List String := (a ++ b).dedup

/-- Scan of the inner j-loop of _merge_surfaces: the first rest element
mergeable with s1, with its offset. -/
def find_merge_in_row (s1 : SupportSurface) :
    List SupportSurface → Option (ℕ × SupportSurface × Rect)
  | [] => none
  | s2 :: rest =>
    match try_merge_two_rects s1.rect s2.rect with
    | some r => some (0, s2, r)
    | none => (find_merge_in_row s1 rest).map (fun p => (p.1 + 1, p.2.1, p.2.2))

/-- A mergeable pair found by the i/j scan of _merge_surfaces. -/
structure MergeHit where
  i : ℕ
  j : ℕ
  s1 : SupportSurface
  s2 : SupportSurface
  merged : Rect
deriving Repr

/-- Scan of the nested i/j loops of _merge_surfaces: the first mergeable
pair in lexicographic index order. -/
def find_merge_pair : List SupportSurface → Option MergeHit
  | [] => none
  | s1 :: rest =>
    match find_merge_in_row s1 rest with
    | some (j, s2, r) => some ⟨0, j + 1, s1, s2, r⟩
    | none =>
      (find_merge_pair rest).map (fun h => ⟨h.i + 1, h.j + 1, h.s1, h.s2, h.merged⟩)

/-- One merge of _merge_surfaces: pop index j, pop index i, append the
merged surface (which takes the z of the height group). -/
def merge_step (z : ℚ) (group : List SupportSurface) (h : MergeHit) :
    List SupportSurface :=
  (group.eraseIdx h.j).eraseIdx h.i ++
    [{ z := z, rect := h.merged,
       supporting_items := dedup_union h.s1.supporting_items h.s2.supporting_items }]

/-- The while-loop of _merge_surfaces for one height group, with explicit
fuel; each firing merge shrinks the group by one, so fuel equal to the
initial length (supplied by merge_group) is never exhausted. -/
def merge_group_aux (z : ℚ) : ℕ → List SupportSurface → List SupportSurface
  | 0, group => group
  | fuel + 1, group =>
    if group.length ≤ 1 then group
    else
      match find_merge_pair group with
      | none => group
      | some h => merge_group_aux z fuel (merge_step z group h)

/-- The per-height merge loop of _merge_surfaces. -/
def merge_group (z : ℚ) (group : List SupportSurface) : List SupportSurface :=
  merge_group_aux z group.length group

/-- The z keys of the surfaces_by_z dict of _merge_surfaces, in first
occurrence order (Python dicts preserve key insertion order). -/
def first_keys : List SupportSurface → List ℚ
  | [] => []
  | s :: rest => s.z :: first_keys (rest.filter (fun t => t.z ≠ s.z))
termination_by l => l.length
decreasing_by
  simp only [List.length_cons]
  exact Nat.lt_succ_of_le (List.length_filter_le _ _)

/-- The surfaces_by_z grouping of _merge_surfaces: each key with all the
surfaces of exactly that height, in list order. -/
def group_by_z (ss : List SupportSurface) : List (ℚ × List SupportSurface) :=
  (first_keys ss).map (fun z => (z, ss.filter (fun s => s.z = z)))

/-- EMS/surface_manager.py _merge_surfaces: merge every height group and
concatenate the groups in key order. -/
def merge_surfaces (ss : List SupportSurface) : List SupportSurface :=
  (group_by_z ss).flatMap (fun p => merge_group p.1 p.2)

/-- EMS/surface_manager.py _cut_surface: remainders of a surface after
removing the clipped cutter; the below/above strips span the full width and
the left/right strips the full height, and degenerate rectangles are
dropped. -/
def ems_cut_surface (surface : SupportSurface) (cutter : Rect) :
    List SupportSurface :=
  let sxmin := surface.rect.1; let symin := surface.rect.2.1
  let sxmax := surface.rect.2.2.1; let symax := surface.rect.2.2.2
  let ixmin := max sxmin cutter.1
  let iymin := max symin cutter.2.1
  let ixmax := min sxmax cutter.2.2.1
  let iymax := min symax cutter.2.2.2
  let rects : List Rect :=
    (if iymin > symin then [(sxmin, symin, sxmax, iymin)] else []) ++
    (if iymax < symax then [(sxmin, iymax, sxmax, symax)] else []) ++
    (if ixmin > sxmin then [(sxmin, symin, ixmin, symax)] else []) ++
    (if ixmax < sxmax then [(ixmax, symin, sxmax, symax)] else [])
  (rects.filter (fun r => r.1 < r.2.2.1 ∧ r.2.1 < r.2.2.2)).map
    (fun r => { z := surface.z, rect := r,
                supporting_items := surface.supporting_items })

/-- EMS/surface_manager.py update_support_surfaces. The source computes
is_at_correct_z (surface.z - item_z == 0) but never uses it: a surface is
affected exactly when its rectangle meets the footprint, at any height.
Returns none on the ValueError path (item without a position). -/
def ems_update_support_surfaces (placed : Item)
    (all_surfaces : List SupportSurface) : Option (List SupportSurface) :=
  match placed.position with
  | none => none
  | some pp =>
    let dims := placed.get_rotated_dimensions placed.rotation_type
    let footprint : Rect := (pp.1, pp.2.1, pp.1 + dims.1, pp.2.1 + dims.2.1)
    let affected := all_surfaces.filter
      (fun s => get_intersection_area s.rect footprint > 0)
    let unaffected := all_surfaces.filter
      (fun s => ¬ get_intersection_area s.rect footprint > 0)
    let remaining := affected.flatMap (fun s => ems_cut_surface s footprint)
    let top : SupportSurface :=
      { z := pp.2.2 + dims.2.2, rect := footprint,
        supporting_items := [toString placed.id] }
    some (merge_surfaces (unaffected ++ remaining ++ [top]))

/-! Claim C3: fixtures and evaluation. -/

/-- A cube with calc dims 50x50x50, already placed at the origin. -/
def itemCut : Item :=
  { id := 7, base_dimensions := (47, 47, 47), weight := 1,
    position := some (0, 0, 0), allowed_rotations := [0] }

/-- The floor of the 100-cage. -/
def floor100 : SupportSurface := floorSurface (100, 100, 100)

/-- A support surface at height 50 left by some earlier item 1 (its top). -/
def shelf50 : SupportSurface :=
  { z := 50, rect := (0, 0, 50, 50), supporting_items := ["1"] }

/-- C3: evaluation of the EMS surface update at a concrete failing input.
Placing a 50-cube at the origin (bottom height 0) must, per the claim, cut
only the floor (the only surface at z = 0 meeting the footprint) and carry
the z = 50 shelf into the result unchanged. The code instead treats the
shelf as affected, since the computed z test is dead, and cuts it away
entirely (the footprint covers it), so the shelf of item 1 disappears and
only the new top of item 7 remains at z = 50. -/
theorem ems_update_cuts_shelf_at_other_height :
    ems_update_support_surfaces itemCut [floor100, shelf50] =
      some [{ z := 0, rect := (0, 50, 100, 100), supporting_items := ["floor"] },
            { z := 0, rect := (50, 0, 100, 100), supporting_items := ["floor"] },
            { z := 50, rect := (0, 0, 50, 50), supporting_items := ["7"] }] ∧
    shelf50 ∉ [{ z := 0, rect := (0, 50, 100, 100), supporting_items := ["floor"] },
               { z := 0, rect := (50, 0, 100, 100), supporting_items := ["floor"] },
               ({ z := 50, rect := (0, 0, 50, 50), supporting_items := ["7"] } :
                  SupportSurface)] := by
  with_unfolding_all decide

/-! Claim C9: idempotence of the merge pass. The development shows that the
while-loop of _merge_surfaces stops exactly at groups in which no pair of
rectangles is mergeable, so a second pass finds the same height groups and
merges nothing. -/

/-- The inner j-scan returns an offset inside the scanned tail. -/
theorem find_merge_in_row_lt {s1 : SupportSurface} :
    ∀ {l : List SupportSurface} {j : ℕ} {s2 : SupportSurface} {r : Rect},
      find_merge_in_row s1 l = some (j, s2, r) → j < l.length := by
  intro l
  induction l with
  | nil => intro j s2 r h; simp [find_merge_in_row] at h
  | cons sh t ih =>
    intro j s2 r h
    simp only [find_merge_in_row] at h
    cases htm : try_merge_two_rects s1.rect sh.rect with
    | some r0 =>
      rw [htm] at h
      simp only [Option.some.injEq, Prod.mk.injEq] at h
      simp only [List.length_cons]
      omega
    | none =>
      rw [htm] at h
      cases hrec : find_merge_in_row s1 t with
      | none => rw [hrec] at h; simp at h
      | some p =>
        rw [hrec] at h
        simp only [Option.map_some', Option.some.injEq, Prod.mk.injEq] at h
        obtain ⟨hj, _, _⟩ := h
        have hp : find_merge_in_row s1 t = some (p.1, p.2.1, p.2.2) := by
          rw [hrec]
        have := ih hp
        simp only [List.length_cons]
        omega

/-- The i/j scan returns indices with i strictly below j, inside the group. -/
theorem find_merge_pair_lt :
    ∀ {l : List SupportSurface} {h : MergeHit},
      find_merge_pair l = some h → h.i < h.j ∧ h.j < l.length := by
  intro l
  induction l with
  | nil => intro h hh; simp [find_merge_pair] at hh
  | cons s1 rest ih =>
    intro h hh
    simp only [find_merge_pair] at hh
    cases hrow : find_merge_in_row s1 rest with
    | some p =>
      rw [hrow] at hh
      obtain ⟨j, s2, r⟩ := p
      simp only [Option.some.injEq] at hh
      subst hh
      have := find_merge_in_row_lt (l := rest) hrow
      simp only [List.length_cons]
      omega
    | none =>
      rw [hrow] at hh
      cases hrec : find_merge_pair rest with
      | none => rw [hrec] at hh; simp at hh
      | some h0 =>
        rw [hrec] at hh
        simp only [Option.map_some', Option.some.injEq] at hh
        subst hh
        have := ih hrec
        simp only [List.length_cons]
        omega

/-- One firing merge shrinks a group by exactly one surface. -/
theorem merge_step_length (z : ℚ) {g : List SupportSurface} {h : MergeHit}
    (hij : h.i < h.j) (hjl : h.j < g.length) :
    (merge_step z g h).length = g.length - 1 := by
  have h1 : (g.eraseIdx h.j).length = g.length - 1 :=
    List.length_eraseIdx_of_lt hjl
  have h2 : ((g.eraseIdx h.j).eraseIdx h.i).length = (g.eraseIdx h.j).length - 1 :=
    List.length_eraseIdx_of_lt (by omega)
  simp only [merge_step, List.length_append, List.length_cons, List.length_nil]
  omega

/-- A group in which the while-loop of _merge_surfaces can fire no merge. -/
def no_merge (g : List SupportSurface) : Prop :=
  g.length ≤ 1 ∨ find_merge_pair g = none

/-- With fuel at least the group length, the merge loop runs to a state
with no mergeable pair left. -/
theorem merge_group_aux_no_merge (z : ℚ) :
    ∀ (fuel : ℕ) (g : List SupportSurface), g.length ≤ fuel + 1 →
      no_merge (merge_group_aux z fuel g) := by
  intro fuel
  induction fuel with
  | zero =>
    intro g hg
    exact Or.inl (by simpa [merge_group_aux] using hg)
  | succ n ih =>
    intro g hg
    simp only [merge_group_aux]
    by_cases hlen : g.length ≤ 1
    · rw [if_pos hlen]; exact Or.inl hlen
    · rw [if_neg hlen]
      cases hf : find_merge_pair g with
      | none => exact Or.inr hf
      | some h =>
        apply ih
        have hb := find_merge_pair_lt hf
        rw [merge_step_length z hb.1 hb.2]
        omega

/-- The result of merge_group has no mergeable pair left. -/
theorem no_merge_merge_group (z : ℚ) (g : List SupportSurface) :
    no_merge (merge_group z g) :=
  merge_group_aux_no_merge z g.length g (by omega)

/-- On a group with no mergeable pair, merge_group is the identity. -/
theorem merge_group_eq_self (z : ℚ) {g : List SupportSurface}
    (h : no_merge g) : merge_group z g = g := by
  unfold merge_group
  cases hl : g.length with
  | zero => simp [merge_group_aux]
  | succ n =>
    simp only [merge_group_aux]
    by_cases h1 : g.length ≤ 1
    · rw [if_pos h1]
    · rw [if_neg h1]
      cases h with
      | inl hx => exact absurd hx h1
      | inr hf => rw [hf]

/-- The per-group merge loop is idempotent. -/
theorem merge_group_idem (z : ℚ) (g : List SupportSurface) :
    merge_group z (merge_group z g) = merge_group z g :=
  merge_group_eq_self z (no_merge_merge_group z g)

/-- Surfaces produced by one merge step are old surfaces or carry the
z of the height group. -/
theorem mem_merge_step {z : ℚ} {x : SupportSurface} {g : List SupportSurface}
    {h : MergeHit} (hx : x ∈ merge_step z g h) : x ∈ g ∨ x.z = z := by
  simp only [merge_step, List.mem_append, List.mem_singleton] at hx
  rcases hx with hx | hx
  · left
    exact (List.eraseIdx_sublist g h.j).subset
      ((List.eraseIdx_sublist (g.eraseIdx h.j) h.i).subset hx)
  · right; rw [hx]

/-- The merge loop preserves height homogeneity of a group. -/
theorem merge_group_aux_z (z : ℚ) :
    ∀ (fuel : ℕ) (g : List SupportSurface), (∀ s ∈ g, s.z = z) →
      ∀ s ∈ merge_group_aux z fuel g, s.z = z := by
  intro fuel
  induction fuel with
  | zero => intro g hg; simpa [merge_group_aux] using hg
  | succ n ih =>
    intro g hg
    simp only [merge_group_aux]
    by_cases hlen : g.length ≤ 1
    · rw [if_pos hlen]; exact hg
    · rw [if_neg hlen]
      cases hf : find_merge_pair g with
      | none => exact hg
      | some h =>
        apply ih
        intro s hs
        rcases mem_merge_step hs with hsg | hsz
        · exact hg s hsg
        · exact hsz

/-- The merged form of a height-z group still consists of height-z
surfaces. -/
theorem merge_group_z (z : ℚ) (g : List SupportSurface)
    (hg : ∀ s ∈ g, s.z = z) : ∀ s ∈ merge_group z g, s.z = z :=
  merge_group_aux_z z g.length g hg

/-- The merge loop never empties a nonempty group. -/
theorem merge_group_aux_ne_nil (z : ℚ) :
    ∀ (fuel : ℕ) (g : List SupportSurface), g ≠ [] →
      merge_group_aux z fuel g ≠ [] := by
  intro fuel
  induction fuel with
  | zero => intro g hg; simpa [merge_group_aux] using hg
  | succ n ih =>
    intro g hg
    simp only [merge_group_aux]
    by_cases hlen : g.length ≤ 1
    · rw [if_pos hlen]; exact hg
    · rw [if_neg hlen]
      cases hf : find_merge_pair g with
      | none => exact hg
      | some h =>
        apply ih
        simp [merge_step]

/-- The merged form of a nonempty group is nonempty. -/
theorem merge_group_ne_nil (z : ℚ) (g : List SupportSurface) (h : g ≠ []) :
    merge_group z g ≠ [] :=
  merge_group_aux_ne_nil z g.length g h

/-- Every key of first_keys is the height of some surface of the list. -/
theorem mem_of_mem_first_keys :
    ∀ {ss : List SupportSurface} {z : ℚ}, z ∈ first_keys ss →
      ∃ s ∈ ss, s.z = z := by
  intro ss
  induction ss using first_keys.induct with
  | case1 => intro z h; simp [first_keys] at h
  | case2 s rest ih =>
    intro z h
    rw [first_keys] at h
    rcases List.mem_cons.mp h with h1 | h2
    · exact ⟨s, List.mem_cons_self s rest, h1.symm⟩
    · obtain ⟨t, ht, hz⟩ := ih h2
      exact ⟨t, List.mem_cons_of_mem s (List.mem_filter.mp ht).1, hz⟩

/-- The height of every surface of the list appears among its first_keys. -/
theorem first_keys_complete :
    ∀ {ss : List SupportSurface} {t : SupportSurface}, t ∈ ss →
      t.z ∈ first_keys ss := by
  intro ss
  induction ss using first_keys.induct with
  | case1 => intro t ht; simp at ht
  | case2 s rest ih =>
    intro t ht
    rw [first_keys]
    rcases List.mem_cons.mp ht with h1 | h2
    · rw [h1]; exact List.mem_cons_self _ _
    · by_cases hz : t.z = s.z
      · rw [hz]; exact List.mem_cons_self _ _
      · refine List.mem_cons_of_mem _ (ih ?_)
        exact List.mem_filter.mpr ⟨h2, by simpa using hz⟩

/-- The key list of the surfaces_by_z dict has no duplicate keys. -/
theorem first_keys_nodup (ss : List SupportSurface) :
    (first_keys ss).Nodup := by
  induction ss using first_keys.induct with
  | case1 => simp [first_keys]
  | case2 s rest ih =>
    rw [first_keys]
    refine List.nodup_cons.mpr ⟨?_, ih⟩
    intro hmem
    obtain ⟨t, ht, hz⟩ := mem_of_mem_first_keys hmem
    have hne := (List.mem_filter.mp ht).2
    simp only [decide_not, Bool.not_eq_eq_eq_not, Bool.not_true,
      decide_eq_false_iff_not] at hne
    exact hne hz

/-- The keys of group_by_z are exactly first_keys. -/
theorem group_by_z_fst (ss : List SupportSurface) :
    (group_by_z ss).map Prod.fst = first_keys ss := by
  simp [group_by_z, List.map_map, Function.comp_def]

/-- Prepending a nonempty homogeneous block of a fresh height z adds z at
the head of first_keys. -/
theorem first_keys_homog_append {z : ℚ} {B R : List SupportSurface}
    (hB : B ≠ []) (hhom : ∀ s ∈ B, s.z = z) (hR : ∀ s ∈ R, s.z ≠ z) :
    first_keys (B ++ R) = z :: first_keys R := by
  cases B with
  | nil => exact absurd rfl hB
  | cons s B2 =>
    have hsz : s.z = z := hhom s (List.mem_cons_self _ _)
    rw [List.cons_append, first_keys]
    have h1 : B2.filter (fun t => t.z ≠ s.z) = [] := by
      rw [List.filter_eq_nil_iff]
      intro a ha
      have : a.z = z := hhom a (List.mem_cons_of_mem _ ha)
      simp [this, hsz]
    have h2 : R.filter (fun t => t.z ≠ s.z) = R := by
      rw [List.filter_eq_self]
      intro a ha
      have : a.z ≠ z := hR a ha
      simp [hsz, this]
    rw [List.filter_append, h1, h2, List.nil_append, hsz]

/-- Grouping a concatenation of nonempty homogeneous blocks with pairwise
distinct keys recovers exactly those blocks. -/
theorem group_by_z_blocks :
    ∀ (l : List (ℚ × List SupportSurface)),
      (∀ p ∈ l, p.2 ≠ []) →
      (∀ p ∈ l, ∀ s ∈ p.2, s.z = p.1) →
      ((l.map Prod.fst).Nodup) →
      group_by_z (l.flatMap Prod.snd) = l := by
  intro l
  induction l with
  | nil => intro _ _ _; simp [group_by_z, first_keys]
  | cons p rest ih =>
    intro hne hhom hnd
    obtain ⟨z, B⟩ := p
    rw [List.flatMap_cons]
    have hBne : B ≠ [] := hne (z, B) (List.mem_cons_self _ _)
    have hBhom : ∀ s ∈ B, s.z = z := fun s hs =>
      hhom (z, B) (List.mem_cons_self _ _) s hs
    have hzR : ∀ s ∈ rest.flatMap Prod.snd, s.z ≠ z := by
      intro s hs
      obtain ⟨q, hq, hsq⟩ := List.mem_flatMap.mp hs
      have h1 : s.z = q.1 := hhom q (List.mem_cons_of_mem _ hq) s hsq
      have h2 : q.1 ≠ z := by
        intro he
        rw [List.map_cons] at hnd
        apply (List.nodup_cons.mp hnd).1
        rw [← he]
        exact List.mem_map.mpr ⟨q, hq, rfl⟩
      rw [h1]; exact h2
    simp only [group_by_z]
    rw [first_keys_homog_append hBne hBhom hzR, List.map_cons]
    have hhead : (B ++ rest.flatMap Prod.snd).filter (fun s => s.z = z) = B := by
      rw [List.filter_append]
      have h1 : B.filter (fun s => s.z = z) = B := by
        rw [List.filter_eq_self]
        intro a ha; simp [hBhom a ha]
      have h2 : (rest.flatMap Prod.snd).filter (fun s => s.z = z) = [] := by
        rw [List.filter_eq_nil_iff]
        intro a ha; simp [hzR a ha]
      rw [h1, h2, List.append_nil]
    rw [hhead]
    have htail : ∀ w ∈ first_keys (rest.flatMap Prod.snd),
        (w, (B ++ rest.flatMap Prod.snd).filter (fun s => s.z = w)) =
          (w, (rest.flatMap Prod.snd).filter (fun s => s.z = w)) := by
      intro w hw
      obtain ⟨t, ht, htz⟩ := mem_of_mem_first_keys hw
      have hwz : w ≠ z := by rw [← htz]; exact hzR t ht
      have hBf : B.filter (fun s => s.z = w) = [] := by
        rw [List.filter_eq_nil_iff]
        intro a ha
        have := hBhom a ha
        simp [this]
        intro he
        exact hwz he.symm
      rw [List.filter_append, hBf, List.nil_append]
    rw [List.map_congr_left htail]
    have hrest : group_by_z (rest.flatMap Prod.snd) = rest :=
      ih (fun q hq => hne q (List.mem_cons_of_mem _ hq))
         (fun q hq => hhom q (List.mem_cons_of_mem _ hq))
         ((List.nodup_cons.mp hnd).2)
    simp only [group_by_z] at hrest
    rw [hrest]

/-- C9: the merge pass of the surface manager is idempotent: applying
_merge_surfaces twice yields exactly the list a single application yields
(both SurfaceManager variants share this code verbatim). -/
theorem merge_surfaces_idem (ss : List SupportSurface) :
    merge_surfaces (merge_surfaces ss) = merge_surfaces ss := by
  have hmm : merge_surfaces ss =
      ((group_by_z ss).map (fun p => (p.1, merge_group p.1 p.2))).flatMap
        Prod.snd := by
    rw [merge_surfaces, List.flatMap_map]
  have hgrp : ∀ p ∈ group_by_z ss,
      p.2 = ss.filter (fun s => s.z = p.1) ∧ p.1 ∈ first_keys ss := by
    intro p hp
    simp only [group_by_z, List.mem_map] at hp
    obtain ⟨w, hw, rfl⟩ := hp
    exact ⟨rfl, hw⟩
  have h1 : ∀ p ∈ (group_by_z ss).map (fun p => (p.1, merge_group p.1 p.2)),
      p.2 ≠ [] := by
    intro p hp
    simp only [List.mem_map] at hp
    obtain ⟨q, hq, rfl⟩ := hp
    obtain ⟨hqf, hqk⟩ := hgrp q hq
    apply merge_group_ne_nil
    obtain ⟨t, ht, htz⟩ := mem_of_mem_first_keys hqk
    apply List.ne_nil_of_mem (a := t)
    rw [hqf]
    exact List.mem_filter.mpr ⟨ht, by simp [htz]⟩
  have h2 : ∀ p ∈ (group_by_z ss).map (fun p => (p.1, merge_group p.1 p.2)),
      ∀ s ∈ p.2, s.z = p.1 := by
    intro p hp
    simp only [List.mem_map] at hp
    obtain ⟨q, hq, rfl⟩ := hp
    obtain ⟨hqf, _⟩ := hgrp q hq
    apply merge_group_z
    intro s hs
    rw [hqf] at hs
    have := (List.mem_filter.mp hs).2
    simpa using this
  have h3 : (((group_by_z ss).map (fun p => (p.1, merge_group p.1 p.2))).map
      Prod.fst).Nodup := by
    rw [List.map_map]
    have : (Prod.fst ∘ fun p : ℚ × List SupportSurface =>
        (p.1, merge_group p.1 p.2)) = Prod.fst := rfl
    rw [this, group_by_z_fst]
    exact first_keys_nodup ss
  calc merge_surfaces (merge_surfaces ss)
      = (group_by_z (((group_by_z ss).map
          (fun p => (p.1, merge_group p.1 p.2))).flatMap Prod.snd)).flatMap
            (fun p => merge_group p.1 p.2) := by rw [← hmm, merge_surfaces]
    _ = ((group_by_z ss).map (fun p => (p.1, merge_group p.1 p.2))).flatMap
          (fun p => merge_group p.1 p.2) := by
            rw [group_by_z_blocks _ h1 h2 h3]
    _ = (group_by_z ss).flatMap
          (fun p => merge_group p.1 (merge_group p.1 p.2)) := by
            rw [List.flatMap_map]
    _ = (group_by_z ss).flatMap (fun p => merge_group p.1 p.2) := by
            have hfun : (fun p : ℚ × List SupportSurface =>
                merge_group p.1 (merge_group p.1 p.2)) =
                  fun p => merge_group p.1 p.2 :=
              funext (fun p => merge_group_idem p.1 p.2)
            rw [hfun]
    _ = merge_surfaces ss := by rw [merge_surfaces]

/-! Sorting. Python sorted is a stable sort; a stable insertion sort over
the same total preorder produces the same list, and is structurally
recursive so concrete runs reduce in the kernel. -/

/-- Insert a in front of the first element b with le a b (stable). -/
def insert_sorted (le : α → α → Bool) (a : α) : List α → List α
  | [] => [a]
  | b :: t => if le a b then a :: b :: t else b :: insert_sorted le a t

/-- Stable insertion sort, the embedding of Python sorted. -/
def sort_by (le : α → α → Bool) (l : List α) : List α :=
  l.foldr (insert_sorted le) []

/-- Lexicographic order on rational triples (the order of Python tuple
comparison). -/
def lex3_le (a b : ℚ × ℚ × ℚ) : Bool :=
  a.1 < b.1 ∨ (a.1 = b.1 ∧
    (a.2.1 < b.2.1 ∨ (a.2.1 = b.2.1 ∧ a.2.2 ≤ b.2.2)))

/-! Scoring from src/bpp_solver/EMS/scoring.py (the only scoring module
present under src; config W_Z_SCORE = 1.0). -/

/-- config.py W_Z_SCORE. -/
def W_Z_SCORE : ℚ := 1

/-- EMS/scoring.py calculate_placement_score: W_Z times 1/(1+z). -/
def calculate_placement_score (position : Pos) : ℚ :=
  W_Z_SCORE * (1 / (1 + position.2.2))

/-! Heuristic packers, from src/bpp_solver/CP/Heuristics/packer.py and
src/bpp_solver/EMS/Heuristics/packer.py. Both import a constraints module
of their own package (src/bpp_solver/CP/constraints.py and
src/bpp_solver/EMS/constraints.py) that is not present under src, so the
feasibility check is a parameter named valid here (the spec, section 4.C,
says it is the five-predicate check; every theorem below holds for an
arbitrary predicate). The CP packer also imports the absent
CP/scoring.py, so its score function is likewise a parameter; per the spec
(section 4.F) it is the same W_Z/(1+z) score as EMS/scoring.py. -/

/-- The best_placement dict of the heuristic packers. -/
structure Placement where
  score : ℚ
  item : Item
  position : Pos
  rotation_type : Fin 6
deriving DecidableEq, Repr

/-- The shared best-tracking update of both heuristic pack loops: on a
feasible triple, keep it when its score strictly exceeds the best so far
(the initial best has score minus infinity, modelled by none). -/
def best_step (valid : CageTrolley → Item → Pos → Fin 6 → Bool)
    (score : Pos → ℚ) (cage : CageTrolley) (best : Option Placement)
    (t : Item × Fin 6 × Pos) : Option Placement :=
  if valid cage t.1 t.2.2 t.2.1 then
    let sc := score t.2.2
    match best with
    | none => some ⟨sc, t.1, t.2.2, t.2.1⟩
    | some b => if sc > b.score then some ⟨sc, t.1, t.2.2, t.2.1⟩ else some b
  else best

/-- CP/Heuristics/packer.py _update_corner_points: remove the used anchor,
add the three child corners of the placed item (the top corner is added for
fragile items too), drop points outside the cage (against the config
CAGE_DIMENSIONS, as in the source) or strictly inside any packed item,
deduplicate and sort. -/
def update_corner_points (cage : CageTrolley) (placed : Item) : CageTrolley :=
  match placed.position with
  | none => cage
  | some pos =>
    let dims := placed.get_rotated_dimensions placed.rotation_type
    let new_points : List Pos :=
      [(pos.1 + dims.1, pos.2.1, pos.2.2),
       (pos.1, pos.2.1 + dims.2.1, pos.2.2),
       (pos.1, pos.2.1, pos.2.2 + dims.2.2)]
    let updated_points := cage.corner_points.erase pos
    let all_potential := (updated_points ++ new_points).dedup
    let final_points := all_potential.filter (fun p =>
      ¬ (p.1 ≥ CAGE_DIMENSIONS.1 - TOLERANCE ∨
         p.2.1 ≥ CAGE_DIMENSIONS.2.1 - TOLERANCE ∨
         p.2.2 ≥ CAGE_DIMENSIONS.2.2 - TOLERANCE) ∧
      ¬ cage.packed_items.any (fun q =>
          match q.position with
          | none => false
          | some qp =>
            let qd := q.get_rotated_dimensions q.rotation_type
            qp.1 - TOLERANCE < p.1 ∧ p.1 < qp.1 + qd.1 - TOLERANCE ∧
            qp.2.1 - TOLERANCE < p.2.1 ∧ p.2.1 < qp.2.1 + qd.2.1 - TOLERANCE ∧
            qp.2.2 - TOLERANCE < p.2.2 ∧ p.2.2 < qp.2.2 + qd.2.2 - TOLERANCE))
    { cage with corner_points := sort_by lex3_le final_points.dedup }

/-- CP/Heuristics/packer.py pack, search phase: corner points sorted by
(y, x, z), then the (item, rotation, point) triples scanned in nested
order, tracking the strict-improvement best. -/
def cp_best_placement (valid : CageTrolley → Item → Pos → Fin 6 → Bool)
    (score : Pos → ℚ) (cage : CageTrolley) (cands : List Item) :
    Option Placement :=
  let sorted_points := sort_by
    (fun p q => lex3_le (p.2.1, p.1, p.2.2) (q.2.1, q.1, q.2.2))
    cage.corner_points
  (cands.flatMap (fun it => it.allowed_rotations.flatMap (fun r =>
      sorted_points.map (fun p => (it, r, p))))).foldl
    (best_step valid score cage) none

/-- CP/Heuristics/packer.py pack: on success commit via add_item and the
corner point update, otherwise return None with the cage untouched. -/
def cp_heuristic_pack (valid : CageTrolley → Item → Pos → Fin 6 → Bool)
    (score : Pos → ℚ) (cage : CageTrolley) (cands : List Item) :
    Option Placement × CageTrolley :=
  match cp_best_placement valid score cage cands with
  | none => (none, cage)
  | some b =>
    let placed : Item :=
      { b.item with position := some b.position, rotation_type := b.rotation_type }
    let cage1 := cage.add_item b.item b.position b.rotation_type
    (some b, update_corner_points cage1 placed)

/-- EMS/Heuristics/packer.py pack, search phase: surfaces sorted by
(z, y_min, x_min), anchors their lower-left corners, scores from
EMS/scoring.py. -/
def ems_best_placement (valid : CageTrolley → Item → Pos → Fin 6 → Bool)
    (cage : CageTrolley) (cands : List Item) : Option Placement :=
  let sorted_surfaces := sort_by
    (fun s t => lex3_le (s.z, s.rect.2.1, s.rect.1) (t.z, t.rect.2.1, t.rect.1))
    cage.support_surfaces
  (cands.flatMap (fun it => it.allowed_rotations.flatMap (fun r =>
      sorted_surfaces.map (fun s => (it, r, (s.rect.1, s.rect.2.1, s.z)))))).foldl
    (best_step valid calculate_placement_score cage) none

/-- EMS/Heuristics/packer.py pack with execute_placement: on success
add_item then replace the surfaces with the update result when it is not
None; otherwise return None with the cage untouched. -/
def ems_heuristic_pack (valid : CageTrolley → Item → Pos → Fin 6 → Bool)
    (cage : CageTrolley) (cands : List Item) :
    Option Placement × CageTrolley :=
  match ems_best_placement valid cage cands with
  | none => (none, cage)
  | some b =>
    let placed : Item :=
      { b.item with position := some b.position, rotation_type := b.rotation_type }
    let cage1 := cage.add_item b.item b.position b.rotation_type
    match ems_update_support_surfaces placed cage1.support_surfaces with
    | some ns => (some b, { cage1 with support_surfaces := ns })
    | none => (some b, cage1)

/-- When every triple of a scan list is infeasible, the best-tracking fold
stays at none. -/
theorem foldl_best_step_none (valid : CageTrolley → Item → Pos → Fin 6 → Bool)
    (score : Pos → ℚ) (cage : CageTrolley) :
    ∀ (l : List (Item × Fin 6 × Pos)),
      (∀ t ∈ l, valid cage t.1 t.2.2 t.2.1 = false) →
      l.foldl (best_step valid score cage) none = none := by
  intro l
  induction l with
  | nil => intro _; rfl
  | cons t rest ih =>
    intro h
    have ht := h t (List.mem_cons_self _ _)
    simp only [List.foldl_cons, best_step, ht]
    simp only [Bool.false_eq_true, if_false]
    exact ih (fun u hu => h u (List.mem_cons_of_mem _ hu))

/-- C8: if no (item, rotation, anchor) triple is feasible, both heuristic
packers return None and leave the cage exactly as it was (packed_items,
support_surfaces, corner_points and hence current_weight unchanged). The
hypothesis quantifies over every position, which covers the anchors each
packer enumerates; it holds for every feasibility predicate, in particular
for the absent CP and EMS constraints modules the packers import. -/
theorem heuristic_pack_no_feasible
    (valid : CageTrolley → Item → Pos → Fin 6 → Bool) (score : Pos → ℚ)
    (cage : CageTrolley) (cands : List Item)
    (h : ∀ it ∈ cands, ∀ r ∈ it.allowed_rotations, ∀ p : Pos,
      valid cage it p r = false) :
    cp_heuristic_pack valid score cage cands = (none, cage) ∧
    ems_heuristic_pack valid cage cands = (none, cage) := by
  have hmem : ∀ (pts : List Pos) (t : Item × Fin 6 × Pos),
      t ∈ cands.flatMap (fun it => it.allowed_rotations.flatMap (fun r =>
        pts.map (fun p => (it, r, p)))) →
      valid cage t.1 t.2.2 t.2.1 = false := by
    intro pts t hmem
    obtain ⟨it, hit, hrest⟩ := List.mem_flatMap.mp hmem
    obtain ⟨r, hr, hmap⟩ := List.mem_flatMap.mp hrest
    obtain ⟨p, _, rfl⟩ := List.mem_map.mp hmap
    exact h it hit r hr p
  constructor
  · have hb : cp_best_placement valid score cage cands = none := by
      unfold cp_best_placement
      exact foldl_best_step_none valid score cage _ (hmem _)
    simp [cp_heuristic_pack, hb]
  · have hb : ems_best_placement valid cage cands = none := by
      unfold ems_best_placement
      apply foldl_best_step_none
      intro t ht
      obtain ⟨it, hit, hrest⟩ := List.mem_flatMap.mp ht
      obtain ⟨r, hr, hmap⟩ := List.mem_flatMap.mp hrest
      obtain ⟨s, _, rfl⟩ := List.mem_map.mp hmap
      exact h it hit r hr _
    simp [ems_heuristic_pack, hb]

/-- C8 witness: with the constant-false predicate, both packers return
None on a concrete cage and candidate list and leave the cage unchanged. -/
theorem heuristic_pack_no_feasible_witness :
    cp_heuristic_pack (fun _ _ _ _ => false) (fun _ => 0) cage0 [itemA] =
      (none, cage0) ∧
    ems_heuristic_pack (fun _ _ _ _ => false) cage0 [itemA] = (none, cage0) :=
  heuristic_pack_no_feasible (fun _ _ _ _ => false) (fun _ => 0) cage0 [itemA]
    (fun _ _ _ _ _ => rfl)

/-! Corner-point generation of the CP MCTS packer,
src/bpp_solver/CP/MCTS/mc_packer.py _generate_candidate_points. -/

/-- mc_packer.py point_in_item (strict interior, tolerance 1e-7). -/
def point_in_item (point : Pos) (packed : Item) : Bool :=
  match packed.position with
  | none => false
  | some ip =>
    let d := packed.get_rotated_dimensions packed.rotation_type
    let tol : ℚ := 1/10000000
    ip.1 + tol < point.1 ∧ point.1 < ip.1 + d.1 - tol ∧
    ip.2.1 + tol < point.2.1 ∧ point.2.1 < ip.2.1 + d.2.1 - tol ∧
    ip.2.2 + tol < point.2.2 ∧ point.2.2 < ip.2.2 + d.2.2 - tol

/-- mc_packer.py point_not_in_any_item. -/
def point_not_in_any_item (point : Pos) (packed : List Item) : Bool :=
  ¬ packed.any (fun it => point_in_item point it)

/-- mc_packer.py _generate_candidate_points: seed (0,0,0); per packed item
the x+ and y+ children and, only when the item is not fragile, the z+
child; keep points not strictly inside any packed item; finally drop
points at or beyond the cage boundary. The Python set is modelled as an
insertion-ordered deduplicated list (consumers sort these points by a
total key, so the representative order is immaterial). Packed items
without a position contribute nothing (the source would fault there). -/
def generate_candidate_points (cage : CageTrolley) : List Pos :=
  let insert_point := fun (pts : List Pos) (p : Pos) =>
    if p ∈ pts then pts else pts ++ [p]
  let pts := cage.packed_items.foldl (fun pts it =>
    match it.position with
    | none => pts
    | some pos =>
      let d := it.get_rotated_dimensions it.rotation_type
      let cands : List Pos :=
        [(pos.1 + d.1, pos.2.1, pos.2.2), (pos.1, pos.2.1 + d.2.1, pos.2.2)] ++
        (if it.is_fragile then [] else [(pos.1, pos.2.1, pos.2.2 + d.2.2)])
      cands.foldl (fun acc p =>
        if point_not_in_any_item p cage.packed_items then insert_point acc p
        else acc) pts) [(0, 0, 0)]
  pts.filter (fun p =>
    p.1 < cage.dimensions.1 - TOLERANCE ∧
    p.2.1 < cage.dimensions.2.1 - TOLERANCE ∧
    p.2.2 < cage.dimensions.2.2 - TOLERANCE)

/-! Claim C4: fixtures and evaluation. -/

/-- A fragile 40-cube (calc dims) placed at the origin. -/
def fragItem : Item :=
  { id := 1, base_dimensions := (37, 37, 37), weight := 1,
    position := some (0, 0, 0), allowed_rotations := [0], is_fragile := true }

/-- The 100-cage holding only the fragile cube. -/
def cageFrag : CageTrolley :=
  mkCageTrolley "c" (100, 100, 100) 500 [fragItem] [] [(0, 0, 0)]

/-- C4: evaluation at a concrete failing input. After placing the fragile
cube, the CP heuristic corner-point update emits the top anchor (0,0,40)
above it — its new_points list carries the z+ child unconditionally — while
the CP MCTS candidate generator, which implements the fragile guard, does
not. The claim (no generator emits a top anchor above a fragile item, as
the spec sections 4.E and design notes mandate) therefore fails on the
heuristic engine. -/
theorem fragile_top_anchor_divergence :
    (0, 0, 40) ∈ (update_corner_points cageFrag fragItem).corner_points ∧
    (0, 0, 40) ∉ generate_candidate_points cageFrag := by
  with_unfolding_all decide

/-! The CP MCTS packer, src/bpp_solver/CP/MCTS/mc_packer.py. Its two
stochastic operations are calls to random.shuffle on the module-global
generator; neither the constructor nor pack takes a seed or Rng argument.
The global generator is modelled as a stream of abstract permutation
selectors consumed by each shuffle call: this captures exactly what the
code reads from the ambient interpreter state. The UCT key of the
selection step (w/n + C sqrt(ln n_parent / n), computed with float log and
sqrt) is kept as an abstract parameter uctKey; no claim depends on its
values (every maximization it feeds ranges over singleton candidate
lists in the runs considered here). -/

/-- The state of the process-global random module: the stream of pending
shuffle outcomes, one selector per random.shuffle call. -/
abbrev Rng := List (List ℕ)

/-- Selector sanity: no duplicate indices. -/
def nodup_idx : List ℕ → Bool
  | [] => true
  | x :: xs => (!(xs.contains x)) && nodup_idx xs

/-- Apply a permutation selector (a list of positions); an invalid selector
leaves the list unchanged. random.shuffle realizes some such permutation on
every call; which one is a function of the hidden global state. -/
def permuteBy (sel : List ℕ) (l : List α) : List α :=
  if sel.length = l.length ∧ nodup_idx sel = true ∧
      sel.all (fun i => decide (i < l.length)) then
    sel.filterMap (fun i => l[i]?)
  else l

/-- One random.shuffle call: consume the next selector of the global
stream. -/
def py_random_shuffle (rng : Rng) (l : List α) : List α × Rng :=
  match rng with
  | [] => (l, [])
  | sel :: rest => (permuteBy sel l, rest)

/-- An action dict of the CP MCTS packer: item, position, rotation. -/
structure OrderAction where
  item : Item
  position : Pos
  rotation_type : Fin 6
deriving DecidableEq, Repr

/-- mc_packer.py lines 80-86: the root sim cage is built from the real
cage WITHOUT passing support_surfaces or corner_points, so the dataclass
defaults apply and post-init recreates the bare floor (copy.copy of the
items is the identity under value semantics). -/
def cp_mcts_root_sim_cage (cage : CageTrolley) : CageTrolley :=
  mkCageTrolley cage.id cage.dimensions cage.weight_limit cage.packed_items
    [] [(0, 0, 0)]

/-- mc_packer.py lines 111-117: the sim cage of an expanded child, again
without support_surfaces, followed by add_item of the expanded action. -/
def cp_mcts_expand_sim_cage (simc : CageTrolley) (it : Item)
    (act : OrderAction) : CageTrolley :=
  (mkCageTrolley simc.id simc.dimensions simc.weight_limit simc.packed_items
    [] [(0, 0, 0)]).add_item it act.position act.rotation_type

/-- mc_packer.py lines 179-184: the rollout working cage, once more
without support_surfaces. -/
def cp_mcts_rollout_sim_cage (cage : CageTrolley) : CageTrolley :=
  mkCageTrolley cage.id cage.dimensions cage.weight_limit cage.packed_items
    [] [(0, 0, 0)]

/-- Strict lexicographic comparison of rational quadruples (Python tuple
comparison, used on the (volume, -z, -y, -x) keys). -/
def lex4_lt (a b : ℚ × ℚ × ℚ × ℚ) : Bool :=
  a.1 < b.1 ∨ (a.1 = b.1 ∧
    (a.2.1 < b.2.1 ∨ (a.2.1 = b.2.1 ∧
      (a.2.2.1 < b.2.2.1 ∨ (a.2.2.1 = b.2.2.1 ∧ a.2.2.2 < b.2.2.2)))))

/-- mc_packer.py _best_valid_action: over (rotation, corner point sorted by
(z, y, x)), the feasible placement with the largest (volume, -z, -y, -x)
key, strict-improvement scan. -/
def best_valid_action (valid : CageTrolley → Item → Pos → Fin 6 → Bool)
    (cage : CageTrolley) (it : Item) : Option OrderAction :=
  let points := generate_candidate_points cage
  if points.isEmpty then none
  else
    let pts := sort_by
      (fun p q => lex3_le (p.2.2, p.2.1, p.1) (q.2.2, q.2.1, q.1)) points
    ((it.allowed_rotations.flatMap (fun r => pts.map (fun p => (r, p)))).foldl
      (fun best t =>
        if valid cage it t.2 t.1 then
          let d := it.get_rotated_dimensions t.1
          let key := (d.1 * d.2.1 * d.2.2, -t.2.2.2, -t.2.2.1, -t.2.1)
          match best with
          | none => some (key, (⟨it, t.2, t.1⟩ : OrderAction))
          | some b =>
            if lex4_lt b.1 key then some (key, (⟨it, t.2, t.1⟩ : OrderAction))
            else some b
        else best) none).map Prod.snd

/-- The expansion scan of mc_packer.py: the first item of the shuffled
remaining list that has any feasible action on the sim cage. -/
def first_expandable (valid : CageTrolley → Item → Pos → Fin 6 → Bool)
    (simc : CageTrolley) : List Item → Option (Item × OrderAction)
  | [] => none
  | it :: rest =>
    match best_valid_action valid simc it with
    | some act => some (it, act)
    | none => first_expandable valid simc rest

/-- mc_packer.py _rollout_order: shuffle the remaining items, then greedily
commit each item's best valid action on the evolving rollout cage, summing
placed volume. -/
def rollout_order (valid : CageTrolley → Item → Pos → Fin 6 → Bool)
    (cage : CageTrolley) (remaining : List Item) (rng : Rng) : ℚ × Rng :=
  let sim := cp_mcts_rollout_sim_cage cage
  let shuffled := py_random_shuffle rng remaining
  let out := shuffled.1.foldl (fun (st : CageTrolley × ℚ) it =>
    match best_valid_action valid st.1 it with
    | none => st
    | some act =>
      let d := it.get_rotated_dimensions act.rotation_type
      (st.1.add_item it act.position act.rotation_type,
       st.2 + d.1 * d.2.1 * d.2.2)) (sim, 0)
  (out.2, shuffled.2)

/-- A node of the open-loop order tree (_OrderNode of mc_packer.py). -/
inductive ONode : Type where
  | node (w : ℚ) (n : ℕ) (remaining : List Item) (sim_cage : CageTrolley)
      (action : Option OrderAction) (added : ℚ) (children : List ONode) :
      ONode

/-- Cumulative reward w. -/
def ONode.w : ONode → ℚ
  | .node w _ _ _ _ _ _ => w

/-- Visit count n. -/
def ONode.n : ONode → ℕ
  | .node _ n _ _ _ _ _ => n

/-- Items not yet fixed on the path. -/
def ONode.remaining : ONode → List Item
  | .node _ _ rem _ _ _ _ => rem

/-- The node's simulated cage. -/
def ONode.sim_cage : ONode → CageTrolley
  | .node _ _ _ sc _ _ _ => sc

/-- The action that reached this node. -/
def ONode.action : ONode → Option OrderAction
  | .node _ _ _ _ a _ _ => a

/-- Total volume placed on the path. -/
def ONode.added : ONode → ℚ
  | .node _ _ _ _ _ ad _ => ad

/-- The node's children. -/
def ONode.children : ONode → List ONode
  | .node _ _ _ _ _ _ ch => ch

/-- Python max(iterable, key=f): the first element whose key no later
element strictly exceeds; none on an empty list (where Python raises). -/
def py_max_by {α : Type} {β : Type} [LinearOrder β] (f : α → β) :
    List α → Option α
  | [] => none
  | x :: xs => some (xs.foldl (fun best y => if f y > f best then y else best) x)

/-- The index of the element Python max would return (the code mutates the
returned node object in place; functionally, the update happens at the
first maximizing index). -/
def py_max_idx_by {α : Type} {β : Type} [LinearOrder β] (f : α → β)
    (l : List α) : ℕ :=
  ((py_max_by (fun p : ℕ × α => f p.2) l.enum).map Prod.fst).getD 0

/-- One iteration of the per-simulation loop of _order_mcts_first_action:
selection by descending to the uct-maximal child while the node has
children and remaining items, then expansion (first shuffled placeable
item), rollout, and backpropagation folded into the unwinding (each node on
the path gains the reward and one visit; a new child starts at n=1, w equal
to the reward). The recursion is on explicit fuel; children always carry
strictly fewer remaining items than their parent, so the fuel passed by
the driver (pool length + 1) is never exhausted. -/
def simulate_once (valid : CageTrolley → Item → Pos → Fin 6 → Bool)
    (uctKey : ℕ → ONode → ℚ) :
    ℕ → ONode → Rng → (ONode × ℚ × Rng)
  | 0, nd, rng => (nd, 0, rng)
  | fuel + 1, nd, rng =>
    if !nd.children.isEmpty && !nd.remaining.isEmpty then
      let i := py_max_idx_by (uctKey nd.n) nd.children
      match nd.children[i]? with
      | none => (nd, 0, rng)
      | some child =>
        let rec1 := simulate_once valid uctKey fuel child rng
        (ONode.node (nd.w + rec1.2.1) (nd.n + 1) nd.remaining nd.sim_cage
          nd.action nd.added (nd.children.set i rec1.1), rec1.2.1, rec1.2.2)
    else
      if !nd.remaining.isEmpty then
        let shuffled := py_random_shuffle rng nd.remaining
        match first_expandable valid nd.sim_cage shuffled.1 with
        | some (it, act) =>
          let d := it.get_rotated_dimensions act.rotation_type
          let simNext := cp_mcts_expand_sim_cage nd.sim_cage it act
          let childRem := nd.remaining.filter (fun x => x.id ≠ it.id)
          let childAdded := nd.added + d.1 * d.2.1 * d.2.2
          let roll := if childRem.isEmpty then ((0 : ℚ), shuffled.2)
            else rollout_order valid simNext childRem shuffled.2
          let reward := childAdded + roll.1
          let child := ONode.node reward 1 childRem simNext (some act)
            childAdded []
          (ONode.node (nd.w + reward) (nd.n + 1) nd.remaining nd.sim_cage
            nd.action nd.added (nd.children ++ [child]), reward, roll.2)
        | none =>
          let roll := rollout_order valid nd.sim_cage nd.remaining shuffled.2
          let reward := nd.added + roll.1
          (ONode.node (nd.w + reward) (nd.n + 1) nd.remaining nd.sim_cage
            nd.action nd.added nd.children, reward, roll.2)
      else
        (ONode.node (nd.w + nd.added) (nd.n + 1) nd.remaining nd.sim_cage
          nd.action nd.added nd.children, nd.added, rng)

/-- mc_packer.py lines 143-147: the final first-action choice; None when
the root has no children, else the action of the child with maximal mean
reward w/n (Python max keeps the first maximum). -/
def cp_select_first_action (children : List ONode) : Option OrderAction :=
  match py_max_by (fun ch => ch.w / (ch.n : ℚ)) children with
  | none => none
  | some best => best.action

/-- mc_packer.py _order_mcts_first_action: truncate the window, run the
iteration budget (at least one iteration), then select the first action. -/
def order_mcts_first_action (valid : CageTrolley → Item → Pos → Fin 6 → Bool)
    (uctKey : ℕ → ONode → ℚ) (cage : CageTrolley) (candidates : List Item)
    (iters : ℕ) (k : ℕ) (rng : Rng) : Option OrderAction × Rng :=
  let pool := if k > 0 then candidates.take k else candidates.take 4
  if pool.isEmpty then (none, rng)
  else
    let root := ONode.node 0 0 pool (cp_mcts_root_sim_cage cage) none 0 []
    let st := (List.range (max 1 iters)).foldl
      (fun (st : ONode × Rng) _ =>
        let r := simulate_once valid uctKey (pool.length + 1) st.1 st.2
        (r.1, r.2.2)) (root, rng)
    (cp_select_first_action st.1.children, st.2)

/-- mc_packer.py pack: run the search with k = 4, commit the chosen item
to the real cage, and return the placement (None when the window is empty
or no first action exists). -/
def mcts_pack (valid : CageTrolley → Item → Pos → Fin 6 → Bool)
    (uctKey : ℕ → ONode → ℚ) (num_simulations : ℕ) (cage : CageTrolley)
    (candidate_items : List Item) (rng : Rng) :
    Option OrderAction × CageTrolley × Rng :=
  if candidate_items.isEmpty then (none, cage, rng)
  else
    let res := order_mcts_first_action valid uctKey cage candidate_items
      num_simulations 4 rng
    match res.1 with
    | none => (none, cage, res.2)
    | some act =>
      match candidate_items.find? (fun i => i.id == act.item.id) with
      | none => (none, cage, res.2)
      | some chosen =>
        (some ⟨chosen, act.position, act.rotation_type⟩,
         cage.add_item chosen act.position act.rotation_type, res.2)

/-- A node record of the EMS and legacy MCTS packers (MCTSNode): only the
fields their final selection reads. -/
structure MCTSNodeRec where
  w : ℚ
  n : ℕ
  action : Option OrderAction
deriving DecidableEq, Repr

/-- EMS/MCTS/mc_packer.py pack lines 60-63 (and mc_packer.py lines 48-53):
None when the root has no children, else the action of the child with the
maximal visit count. -/
def ems_select_action (children : List MCTSNodeRec) : Option OrderAction :=
  match py_max_by (fun c => c.n) children with
  | none => none
  | some best => best.action

/-! Claims C10, C6, C5. -/

/-- C10: every simulation cage the CP MCTS packer builds (the root's sim
cage, an expanded child's sim cage, a rollout cage) is constructed without
the real cage's support_surfaces, so by the CageTrolley post-init its
surfaces are exactly the single floor of the cage base, whatever the real
cage holds. -/
theorem mcts_sim_cages_have_floor_only (cage simc : CageTrolley) (it : Item)
    (act : OrderAction) :
    (cp_mcts_root_sim_cage cage).support_surfaces =
      [floorSurface cage.dimensions] ∧
    (cp_mcts_expand_sim_cage simc it act).support_surfaces =
      [floorSurface simc.dimensions] ∧
    (cp_mcts_rollout_sim_cage cage).support_surfaces =
      [floorSurface cage.dimensions] :=
  ⟨rfl, rfl, rfl⟩

/-- Python max with a key returns an element of the list whose key no
element exceeds (the first such, by strict-improvement scanning). -/
theorem py_max_by_spec {α β : Type} [LinearOrder β] (f : α → β)
    (l : List α) (h : l ≠ []) :
    ∃ a ∈ l, py_max_by f l = some a ∧ ∀ b ∈ l, f b ≤ f a := by
  match l, h with
  | x :: xs, _ =>
    have key : ∀ (ys : List α) (z : α),
        (ys.foldl (fun best y => if f y > f best then y else best) z) ∈
          z :: ys ∧
        ∀ b ∈ z :: ys,
          f b ≤ f (ys.foldl (fun best y => if f y > f best then y else best) z) := by
      intro ys
      induction ys with
      | nil =>
        intro z
        simp only [List.foldl_nil]
        refine ⟨List.mem_singleton.mpr rfl, ?_⟩
        intro b hb
        rw [List.mem_singleton.mp hb]
      | cons y ys ih =>
        intro z
        simp only [List.foldl_cons]
        by_cases hc : f y > f z
        · rw [if_pos hc]
          obtain ⟨hmem, hmax⟩ := ih y
          constructor
          · rcases List.mem_cons.mp hmem with h1 | h2
            · rw [h1]; exact List.mem_cons_of_mem _ (List.mem_cons_self _ _)
            · exact List.mem_cons_of_mem _ (List.mem_cons_of_mem _ h2)
          · intro b hb
            have hy := hmax y (List.mem_cons_self _ _)
            rcases List.mem_cons.mp hb with rfl | hb2
            · exact le_trans (le_of_lt hc) hy
            · exact hmax b hb2
        · rw [if_neg hc]
          obtain ⟨hmem, hmax⟩ := ih z
          constructor
          · rcases List.mem_cons.mp hmem with h1 | h2
            · rw [h1]; exact List.mem_cons_self _ _
            · exact List.mem_cons_of_mem _ (List.mem_cons_of_mem _ h2)
          · intro b hb
            have hz := hmax z (List.mem_cons_self _ _)
            rcases List.mem_cons.mp hb with rfl | hb2
            · exact hz
            · rcases List.mem_cons.mp hb2 with rfl | hb3
              · exact le_trans (le_of_not_lt hc) hz
              · exact hmax b (List.mem_cons_of_mem _ hb3)
    obtain ⟨hm, hx⟩ := key xs x
    exact ⟨_, hm, rfl, hx⟩

/-- C6 (amended): the final selection of the CP MCTS pack returns the
action of a root child whose mean reward w/n is maximal, and None exactly
when the root has no children; the EMS (and legacy) MCTS packs instead
return the action of a child with maximal visit count n, likewise None on
a childless root. -/
theorem mcts_final_selection (cs : List ONode) (es : List MCTSNodeRec)
    (hc : cs ≠ []) (he : es ≠ []) :
    (∃ ch ∈ cs, cp_select_first_action cs = ch.action ∧
      ∀ other ∈ cs, other.w / (other.n : ℚ) ≤ ch.w / (ch.n : ℚ)) ∧
    (∃ nd ∈ es, ems_select_action es = nd.action ∧
      ∀ other ∈ es, other.n ≤ nd.n) ∧
    cp_select_first_action [] = none ∧
    ems_select_action [] = none := by
  refine ⟨?_, ?_, rfl, rfl⟩
  · obtain ⟨a, ha, he1, hm⟩ :=
      py_max_by_spec (fun ch : ONode => ch.w / (ch.n : ℚ)) cs hc
    exact ⟨a, ha, by simp [cp_select_first_action, he1], hm⟩
  · obtain ⟨a, ha, he1, hm⟩ := py_max_by_spec (fun c : MCTSNodeRec => c.n) es he
    exact ⟨a, ha, by simp [ems_select_action, he1], hm⟩

/-- The first action dict of item 1 at the origin. -/
def actA : OrderAction := ⟨itemA, (0, 0, 0), 0⟩

/-- The first action dict of item 2 at the origin. -/
def actB : OrderAction := ⟨itemB, (0, 0, 0), 0⟩

/-- A root child with mean reward 10 from a single visit. -/
def onA : ONode := ONode.node 10 1 [] cage0 (some actA) 0 []

/-- A root child with mean reward 3 from four visits. -/
def onB : ONode := ONode.node 12 4 [] cage0 (some actB) 0 []

/-- The same two children as EMS node records. -/
def emA : MCTSNodeRec := ⟨10, 1, some actA⟩

/-- The second EMS node record, more visits but lower mean. -/
def emB : MCTSNodeRec := ⟨12, 4, some actB⟩

/-- C6 witness: the selection theorem applied to singleton child lists. -/
theorem mcts_final_selection_witness :
    (∃ ch ∈ [onA], cp_select_first_action [onA] = ch.action ∧
      ∀ other ∈ [onA], other.w / (other.n : ℚ) ≤ ch.w / (ch.n : ℚ)) ∧
    (∃ nd ∈ [emA], ems_select_action [emA] = nd.action ∧
      ∀ other ∈ [emA], other.n ≤ nd.n) ∧
    cp_select_first_action [] = none ∧
    ems_select_action [] = none :=
  mcts_final_selection [onA] [emA] (by simp) (by simp)

/-- C6 counterexample: on root children with rewards/visits (w=10, n=1)
and (w=12, n=4), the EMS/legacy selection (max visit count) returns the
second child's action while the mean-reward rule the claim states for
every pack variant picks the first child's action; the two differ. -/
theorem visit_count_selection_counterexample :
    ems_select_action [emA, emB] = some actB ∧
    cp_select_first_action [onA, onB] = some actA ∧
    actA ≠ actB := by
  with_unfolding_all decide

/-- The abstract UCT key used to instantiate the concrete MCTS runs (its
value is irrelevant there: the selection maximization never compares two
children in these runs, because the root never has more than one child). -/
def uct0 : ℕ → ONode → ℚ := fun _ _ => 0

/-- A global-RNG stream whose first shuffle is the identity on a pair and
whose second leaves a singleton in place. -/
def rngAB : Rng := [[0, 1], [0]]

/-- A global-RNG stream whose first shuffle swaps a pair. -/
def rngBA : Rng := [[1, 0], [0]]

/-- C5 counterexample: two invocations of pack with the identical cage,
identical candidate list and identical packer configuration return
different placements when the process-global RNG is in different states.
The packer takes no seed or RNG argument (its only inputs are the cage and
the candidates), so the stochastic choices demonstrably come from the
implicit global generator, not an injected seed. -/
theorem mcts_pack_differs_across_global_rng_states :
    (mcts_pack is_placement_valid uct0 1 cage0 [itemA, itemB] rngAB).1 ≠
      (mcts_pack is_placement_valid uct0 1 cage0 [itemA, itemB] rngBA).1 := by
  with_unfolding_all decide

/-- C5 (amended): pack is a deterministic function of the cage, the
candidates and the global RNG state: with the stream fixed, the returned
placement is a definite value (here pinned exactly for both example
streams); varying only the ambient stream flips which item is returned. -/
theorem mcts_pack_determined_by_global_rng :
    (mcts_pack is_placement_valid uct0 1 cage0 [itemA, itemB] rngAB).1 =
      some ⟨itemA, (0, 0, 0), 0⟩ ∧
    (mcts_pack is_placement_valid uct0 1 cage0 [itemA, itemB] rngBA).1 =
      some ⟨itemB, (0, 0, 0), 0⟩ := by
  with_unfolding_all decide

end BPP
